import Mathlib

/-!
Shallow embedding of `src/parse_tools.py`: the streaming XML record pump
(`clear`, `parse_wrapper`) and the chunked CSV writers (`astype`,
`ChunkWriter`, `DummyWriter`), together with theorems checking the
specification of that file against the code.
-/

namespace ParseTools

/-! ### Elements, `clear`, and the pull-parser pump -/

/-- A completed designated element of the parse tree, abstracted to its
payload (text and attribute content); `elem.clear()` empties the payload. -/
structure Elem where
  content : String
deriving DecidableEq

/-- `clear` (parse_tools.py lines 30 to 33): `elem.clear()` empties the
element in place, then the `while` loop repeatedly executes
`del elem.getparent()[0]` until `elem` has no preceding sibling.  Modelled
on the parent's child list with `elem` sitting at index `k`: the child at
`k` is emptied and the `k` preceding children are deleted. -/
def clear (children : List Elem) (k : Nat) : List Elem :=
  (children.set k { content := "" }).drop k

/-- The `parse_all` loop (lines 39 to 42) over a state of the root's child
list and the outputs so far.  The count is the number of pending completed
elements, which sit at the end of the child list (everything before them is
shells and partial content): each in turn is yielded through
`parser(pat, fname)` and then `clear(pat)` runs, so one drain processes all
elements completed since the previous drain, in document order. -/
def drainN {α : Type} (f : Elem → α) :
    Nat → List Elem × List α → List Elem × List α
  | 0, st => st
  | k + 1, (tree, outs) =>
    let idx := tree.length - (k + 1)
    drainN f k
      (clear tree idx, outs ++ [f (tree.getD idx { content := "" })])

/-- `parse_wrapper` at the tree level (lines 44 to 55): the designated
elements completed while a segment's lines are fed accumulate as children
of the synthetic root (nothing is yielded while feeding); each XML
declaration line, and the end of input, then drains them all through
`parse_all`.  `segs` lists, per drain point, the elements completed since
the previous drain. -/
def segRun {α : Type} (f : Elem → α) :
    List (List Elem) → List Elem × List α → List Elem × List α
  | [], st => st
  | es :: segs, (tree, outs) =>
    segRun f segs (drainN f es.length (tree ++ es, outs))

/-! ### `parse_wrapper`: prologue line handling -/

/-- One interaction of `parse_wrapper` with the pull parser (lines 44 to
55): a string handed to `pp.feed`, or a drain (`yield from parse_all()`). -/
inductive FeedEvent where
  | feed (s : String)
  | drain
deriving DecidableEq

/-- Python `str.startswith`, on the character lists of the two strings. -/
def strStartsWith (s p : String) : Bool := p.data.isPrefixOf s.data

/-- Line test of line 47: an XML declaration line. -/
def isDecl (l : String) : Bool := strStartsWith l "<?xml"

/-- Line test of line 49: doctype lines, entity lines and bare
declaration-subset closers, which are dropped. -/
def isDropped (l : String) : Bool :=
  strStartsWith l "<!DOCTYPE" || strStartsWith l "<!ENTITY" ||
    strStartsWith l "]>"

/-- The `for` loop of `parse_wrapper` (lines 46 to 55): an XML declaration
line drains the buffered completed elements, a doctype/entity/closer line
is dropped, any other line is fed as-is; when the input is exhausted the
synthetic root is closed and a final drain runs. -/
def feedLoop : List String → List FeedEvent
  | [] => [.feed "</root>\n", .drain]
  | l :: ls =>
    if isDecl l then .drain :: feedLoop ls
    else if isDropped l then feedLoop ls
    else .feed l :: feedLoop ls

/-- `parse_wrapper` (lines 44 to 55): the synthetic root opening tag is fed
before any input line, then the line loop runs to the end of input. -/
def wrapperEvents (lines : List String) : List FeedEvent :=
  .feed "<root>\n" :: feedLoop lines

/-- The events a single input line contributes, for the characterisation of
`wrapperEvents`. -/
def lineEvents (l : String) : List FeedEvent :=
  if isDecl l then [.drain]
  else if isDropped l then []
  else [.feed l]

/-- The strings fed to the parser, in order. -/
def feedsOf (evts : List FeedEvent) : List String :=
  evts.filterMap (fun e => match e with | .feed s => some s | .drain => none)

/-- The number of drains among the events. -/
def drainCount (evts : List FeedEvent) : Nat :=
  (evts.filter (fun e => match e with | .drain => true | .feed _ => false)).length

/-! ### `astype` and the chunked CSV writer -/

/-- A declared column type: the two dtypes `astype` supports (lines 61 to
67); any other dtype string raises, so it cannot occur in a schema that
commits. -/
inductive Dtype where
  | str
  | int
deriving DecidableEq

/-- A coerced cell as committed to the sink: a verbatim string for a `str`
column, an integer-or-null for an `int` column. -/
inductive Cell where
  | s (v : String)
  | n (v : Option Int)
deriving DecidableEq

/-- The fate of one cell under `pd.to_numeric(..., errors=coerce)` followed
by the `astype(Int64)` safe cast: an integral numeric value (cast to its
integer), a numeric value the cast cannot safely represent as an integer
(non-integral: the cast raises `TypeError` and fails the whole batch), or
NaN for an unparseable value (cast to null). -/
inductive NumCell where
  | ival (n : Int)
  | bad
  | nan
deriving DecidableEq

/-- Split a character list into its leading decimal digits and the rest. -/
def takeDigits : List Char → List Char × List Char
  | [] => ([], [])
  | c :: cs =>
    if c.isDigit then
      let p := takeDigits cs
      (c :: p.1, p.2)
    else ([], c :: cs)

/-- The decimal value of a digit list. -/
def digitsVal (ds : List Char) : Nat :=
  ds.foldl (fun n c => n * 10 + (c.toNat - 48)) 0

/-- An optional trailing exponent: empty means exponent 0; `e`/`E`, an
optional sign and at least one digit give its value; anything else fails
the parse. -/
def parseExp : List Char → Option Int
  | [] => some 0
  | c :: cs =>
    if c = 'e' ∨ c = 'E' then
      match cs with
      | '+' :: ds =>
        if ds ≠ [] ∧ ds.all Char.isDigit then some (digitsVal ds) else none
      | '-' :: ds =>
        if ds ≠ [] ∧ ds.all Char.isDigit then some (-(digitsVal ds : Int))
        else none
      | ds =>
        if ds ≠ [] ∧ ds.all Char.isDigit then some (digitsVal ds) else none
    else none

/-- `digits[.digits][exponent]` with at least one mantissa digit: the
mantissa digits read as a natural, the number of fraction digits, and the
exponent. -/
def parseMantissa (cs : List Char) : Option (Nat × Nat × Int) :=
  let p := takeDigits cs
  match p.2 with
  | '.' :: rest2 =>
    let q := takeDigits rest2
    if p.1 = [] ∧ q.1 = [] then none
    else (parseExp q.2).map (fun e => (digitsVal (p.1 ++ q.1), q.1.length, e))
  | _ =>
    if p.1 = [] then none
    else (parseExp p.2).map (fun e => (digitsVal p.1, 0, e))

/-- Model of `pd.to_numeric(s, errors=coerce)` followed by the
`astype(Int64)` safe cast, on one cell.  The modelled fragment is the
optionally signed decimal and scientific literals with surrounding
whitespace — `[ws][+-]digits[.digits][(e|E)[+-]digits][ws]`, at least one
mantissa digit — whose exact rational value is computed: an integral value
casts to its integer (`"7.0"` to 7, `"+12"` to 12, `"1e3"` to 1000,
`" 12"` to 12), a non-integral value (`"1.5"`) makes the safe cast raise,
and any string outside the fragment (`"abc"`) is NaN under `coerce` and
casts to null.  Not modelled (no claim exercises them): the rounding of
the underlying C double, inf/nan spellings, hex literals, underscores,
overflowing exponents. -/
def toNumeric (s : String) : NumCell :=
  let cs := s.data.dropWhile Char.isWhitespace
  let cs := (cs.reverse.dropWhile Char.isWhitespace).reverse
  let sgncs : Bool × List Char :=
    match cs with
    | '+' :: r => (false, r)
    | '-' :: r => (true, r)
    | r => (false, r)
  match parseMantissa sgncs.2 with
  | none => .nan
  | some (m, s, e) =>
    let v : Int := if sgncs.1 then -(m : Int) else (m : Int)
    if (s : Int) ≤ e then .ival (v * (10 : Int) ^ (e - (s : Int)).toNat)
    else
      let d : Nat := 10 ^ ((s : Int) - e).toNat
      if m % d = 0 then .ival (v / (d : Int)) else .bad

/-- The integer-or-null a successfully cast cell carries. -/
def toIntOption (s : String) : Option Int :=
  match toNumeric s with
  | .ival n => some n
  | _ => none

/-- Does this cell make `astype(Int64)` raise? -/
def isBadNum (s : String) : Bool :=
  match toNumeric s with
  | .bad => true
  | _ => false

/-- Does this cell, under this declared dtype, make the commit cast raise?
String columns never raise. -/
def badCell (dtype : Dtype) (v : String) : Bool :=
  match dtype with
  | .int => isBadNum v
  | .str => false

/-- The cellwise coercion on the non-raising path of `astype` (lines 61 to
67): `str` keeps the value verbatim (`pd.Series(..., dtype=str)` on string
data); `int` is the integer of an integral cell, null for an unparseable
one (a `bad` cell never reaches this point — the column raised). -/
def coerceCell : Dtype → String → Cell
  | .str, v => .s v
  | .int, v => .n (toIntOption v)

/-- `astype` (lines 61 to 67) on a buffered column.  `str` never fails;
`int` raises `TypeError` as soon as the column holds a numeric
non-integral cell (the `astype(Int64)` safe cast), otherwise integral
cells become their integer and unparseable cells become null. -/
def astype (dtype : Dtype) (data : List String) : Except String (List Cell) :=
  match dtype with
  | .str => .ok (data.map Cell.s)
  | .int =>
    if data.any isBadNum then
      .error "TypeError: cannot safely cast non-equivalent float64 to int64"
    else .ok (data.map (fun v => Cell.n (toIntOption v)))

/-- A buffered row: one tuple of string cells, as appended by `insert`. -/
abbrev Row := List String

/-- A committed (coerced) row. -/
abbrev CRow := List Cell

/-- A schema: the ordered column-name-to-dtype mapping. -/
abbrev Schema := List (String × Dtype)

/-- The arity of Python `zip(*items)`: the length of the shortest row of a
nonempty buffer. -/
def minArity : List Row → Nat
  | [] => 0
  | r :: rs => rs.foldl (fun m s => min m s.length) r.length

/-- The rows one `commit` writes (lines 113 to 115): `zip(*self.items)`
transposes the buffer into `min |schema| (minArity items)` columns,
`astype` coerces each column against its schema entry, and
`to_csv(header=False)` appends one line per frame row.  With at least one
column the frame has exactly one row per buffered row, whose cells are the
coerced leading fields of that row; with zero columns the frame is empty
and nothing is appended. -/
def commitRows (schema : Schema) (items : List Row) : List CRow :=
  let n := min schema.length (minArity items)
  if n = 0 then []
  else items.map (fun r => List.zipWith (fun p c => coerceCell p.2 c) (schema.take n) r)

/-- Does the frame construction of `commit` (lines 113 to 114) raise?  The
dict comprehension runs `astype` on each of the `min |schema| (minArity
items)` zipped columns, so it raises exactly when one of those columns is
declared `int` and holds a numeric non-integral cell — cellwise: some row
has a bad cell among its first `n` fields under the paired dtype. -/
def commitRaises (schema : Schema) (items : List Row) : Bool :=
  let n := min schema.length (minArity items)
  items.any (fun r =>
    (List.zipWith badCell ((schema.map Prod.snd).take n) r).any id)

/-- A line of the sink file: the header written at construction, or one
committed row. -/
inductive FileLine where
  | header (s : String)
  | row (r : CRow)
deriving DecidableEq

/-- `ChunkWriter` state (lines 70 to 121): schema, chunk size, diagnostic
flag, the row buffer `items`, the commit counters `i` and `j`, and the sink
file contents.  The Python object never assigns an attribute `table`, yet
line 111 reads `self.table`; the diagnostic branch of `commit` therefore
raises `AttributeError`, modelled by `Except.error`. -/
structure ChunkWriter where
  schema : Schema
  chunk_size : Nat
  output : Bool
  items : List Row
  i : Nat
  j : Nat
  file : List FileLine
deriving DecidableEq

/-- `ChunkWriter.__init__` (lines 71 to 82): empty buffer, zeroed counters,
file opened in truncating mode and the header (the column names joined by
commas) written once, before any batch. -/
def mkChunkWriter (schema : Schema) (chunk_size : Nat) (output : Bool) :
    ChunkWriter :=
  { schema := schema, chunk_size := chunk_size, output := output,
    items := [], i := 0, j := 0,
    file := [FileLine.header (String.intercalate "," (schema.map Prod.fst))] }

/-- `ChunkWriter.commit` (lines 103 to 117).  The source increments `i` and
`j` first (lines 104 to 105) and then proceeds; the increments are
observable only in the non-raising outcomes, which this definition returns
unchanged in meaning: empty buffer, return after the bumps (lines 107 to
108); diagnostic flag set, the `print` of line 111 reads the unassigned
`self.table` and raises; then the frame construction (lines 113 to 114)
runs `astype` per column and raises `TypeError` on a numeric non-integral
cell under an integer dtype — before anything is written and before the
buffer is cleared; otherwise the coerced frame is appended to the file and
the buffer cleared (lines 115 to 117). -/
def ChunkWriter.commit (w : ChunkWriter) : Except String ChunkWriter :=
  if w.items.length = 0 then
    .ok { w with i := w.i + 1, j := w.j + w.items.length }
  else if w.output then
    .error "AttributeError: ChunkWriter has no attribute table"
  else if commitRaises w.schema w.items then
    .error "TypeError: cannot safely cast non-equivalent float64 to int64"
  else
    .ok { w with i := w.i + 1, j := w.j + w.items.length,
                 file := w.file ++ (commitRows w.schema w.items).map FileLine.row,
                 items := [] }

/-- `ChunkWriter.insert` (lines 87 to 93): append the single row, then
commit and report `True` if the buffer has reached the chunk size, else
report `False`. -/
def ChunkWriter.insert (w : ChunkWriter) (r : Row) :
    Except String (ChunkWriter × Bool) :=
  let w1 : ChunkWriter := { w with items := w.items ++ [r] }
  if w1.chunk_size ≤ w1.items.length then
    match w1.commit with
    | .error e => .error e
    | .ok w2 => .ok (w2, true)
  else .ok (w1, false)

/-- `ChunkWriter.insertmany` (lines 95 to 101): extend the buffer by the
whole sequence in one mutation, then commit and report `True` if the buffer
has reached the chunk size, else report `False`. -/
def ChunkWriter.insertmany (w : ChunkWriter) (rs : List Row) :
    Except String (ChunkWriter × Bool) :=
  let w1 : ChunkWriter := { w with items := w.items ++ rs }
  if w1.chunk_size ≤ w1.items.length then
    match w1.commit with
    | .error e => .error e
    | .ok w2 => .ok (w2, true)
  else .ok (w1, false)

/-- `ChunkWriter.delete` (lines 119 to 121): close the sink and remove the
persisted file. -/
def ChunkWriter.delete (w : ChunkWriter) : ChunkWriter :=
  { w with file := [] }

/-- One buffered-writer call: an `insert` or an `insertmany`. -/
inductive WOp where
  | ins (r : Row)
  | insMany (rs : List Row)
deriving DecidableEq

/-- The rows one call inserts. -/
def WOp.rows : WOp → List Row
  | .ins r => [r]
  | .insMany rs => rs

/-- Run single-row `insert` calls in order, collecting every report. -/
def insertSeq : ChunkWriter → List Row → Except String (ChunkWriter × List Bool)
  | w, [] => .ok (w, [])
  | w, r :: rs =>
    match w.insert r with
    | .error e => .error e
    | .ok (w1, b) =>
      match insertSeq w1 rs with
      | .error e => .error e
      | .ok (w2, bs) => .ok (w2, b :: bs)

/-- The buffer left by an `insert`/`insertmany` outcome, if it succeeded. -/
def itemsAfter (x : Except String (ChunkWriter × Bool)) : Option (List Row) :=
  match x with
  | .ok p => some p.1.items
  | .error _ => none

/-- The counter `i` left by a `commit` outcome, if it succeeded. -/
def iAfter (x : Except String ChunkWriter) : Option Nat :=
  match x with
  | .ok w => some w.i
  | .error _ => none

/-- The buffer left by an `insertSeq` outcome, if it succeeded. -/
def seqItemsAfter (x : Except String (ChunkWriter × List Bool)) :
    Option (List Row) :=
  match x with
  | .ok p => some p.1.items
  | .error _ => none

/-! ### The inert writer -/

/-- `DummyWriter` state (lines 124 to 129): chunk size, diagnostic flag,
the most recently seen row, and the running count `i`.  It owns no file and
no schema: no I/O and no coercion can occur. -/
structure DummyWriter where
  chunk_size : Nat
  output : Bool
  last : Option Row
  i : Nat
deriving DecidableEq

/-- `DummyWriter.__init__` (lines 125 to 129). -/
def mkDummyWriter (chunk_size : Nat) (output : Bool) : DummyWriter :=
  { chunk_size := chunk_size, output := output, last := none, i := 0 }

/-- `DummyWriter.commit` (lines 150 to 153): optionally print `self.last`
(an attribute that always exists, so no error), then reset the count. -/
def DummyWriter.commit (d : DummyWriter) : DummyWriter :=
  { d with i := 0 }

/-- `DummyWriter.insert` (lines 131 to 138). -/
def DummyWriter.insert (d : DummyWriter) (r : Row) : DummyWriter × Bool :=
  let d1 : DummyWriter := { d with last := some r, i := d.i + 1 }
  if d1.chunk_size ≤ d1.i then (d1.commit, true) else (d1, false)

/-- `DummyWriter.insertmany` (lines 140 to 148): remember the final row of
a nonempty sequence, add the sequence length to the count, then the same
threshold check. -/
def DummyWriter.insertmany (d : DummyWriter) (rs : List Row) : DummyWriter × Bool :=
  let d1 : DummyWriter :=
    { d with last := if rs.isEmpty then d.last else rs.getLast?,
             i := d.i + rs.length }
  if d1.chunk_size ≤ d1.i then (d1.commit, true) else (d1, false)

/-- `DummyWriter.delete` (lines 155 to 156): nothing to do. -/
def DummyWriter.delete (d : DummyWriter) : DummyWriter := d

/-- One call across the four-method writer interface, for parity runs. -/
inductive DOp where
  | ins (r : Row)
  | insMany (rs : List Row)
  | commitCall
  | deleteCall
deriving DecidableEq

/-- Apply one interface call to the inert writer; every call is a total
function, so no call can raise. -/
def dummyApply (op : DOp) (d : DummyWriter) : DummyWriter :=
  match op with
  | .ins r => (d.insert r).1
  | .insMany rs => (d.insertmany rs).1
  | .commitCall => d.commit
  | .deleteCall => d.delete

/-- Run an arbitrary interface call sequence on the inert writer. -/
def dummyRun (d : DummyWriter) (ops : List DOp) : DummyWriter :=
  ops.foldl (fun d op => dummyApply op d) d

/-- Run single-row `insert` calls in order on the inert writer. -/
def dummyInsertSeq (d : DummyWriter) (rows : List Row) : DummyWriter :=
  rows.foldl (fun d r => (d.insert r).1) d

/-! ### Basic lemmas about `commit`, `insert` and `insertmany` -/

lemma commit_empty (w : ChunkWriter) (h : w.items = []) :
    w.commit = .ok { w with i := w.i + 1 } := by
  simp [ChunkWriter.commit, h]

lemma commit_nonempty (w : ChunkWriter) (hout : w.output = false)
    (h : w.items ≠ [])
    (hsafe : commitRaises w.schema w.items = false) :
    w.commit = .ok { w with
                     i := w.i + 1, j := w.j + w.items.length,
                     file := w.file ++ (commitRows w.schema w.items).map FileLine.row,
                     items := [] } := by
  simp [ChunkWriter.commit, hout, List.length_eq_zero, h, hsafe]

lemma commit_raise (w : ChunkWriter) (hout : w.output = false)
    (h : w.items ≠ [])
    (hbad : commitRaises w.schema w.items = true) :
    w.commit =
      .error "TypeError: cannot safely cast non-equivalent float64 to int64" := by
  simp [ChunkWriter.commit, hout, List.length_eq_zero, h, hbad]

lemma insert_below (w : ChunkWriter) (r : Row)
    (h : w.items.length + 1 < w.chunk_size) :
    w.insert r = .ok ({ w with items := w.items ++ [r] }, false) := by
  have hc : ¬ w.chunk_size ≤ w.items.length + 1 := by omega
  simp [ChunkWriter.insert, hc]

lemma insert_hit (w : ChunkWriter) (r : Row) (hout : w.output = false)
    (h : w.chunk_size ≤ w.items.length + 1)
    (hsafe : commitRaises w.schema (w.items ++ [r]) = false) :
    w.insert r = .ok ({ w with
                        items := [], i := w.i + 1,
                        j := w.j + (w.items.length + 1),
                        file := w.file ++
                          (commitRows w.schema (w.items ++ [r])).map FileLine.row },
      true) := by
  have hcom := commit_nonempty { w with items := w.items ++ [r] }
    (by simp [hout]) (by simp) (by simpa using hsafe)
  simp only [List.length_append, List.length_cons, List.length_nil,
    Nat.zero_add] at hcom
  simp [ChunkWriter.insert, h, hcom]

lemma insert_raise (w : ChunkWriter) (r : Row) (hout : w.output = false)
    (h : w.chunk_size ≤ w.items.length + 1)
    (hbad : commitRaises w.schema (w.items ++ [r]) = true) :
    w.insert r =
      .error "TypeError: cannot safely cast non-equivalent float64 to int64" := by
  have hcom := commit_raise { w with items := w.items ++ [r] }
    (by simp [hout]) (by simp) (by simpa using hbad)
  simp [ChunkWriter.insert, h, hcom]

lemma insertmany_below (w : ChunkWriter) (rs : List Row)
    (h : w.items.length + rs.length < w.chunk_size) :
    w.insertmany rs = .ok ({ w with items := w.items ++ rs }, false) := by
  have hc : ¬ w.chunk_size ≤ w.items.length + rs.length := by omega
  simp [ChunkWriter.insertmany, hc]

lemma insertmany_hit (w : ChunkWriter) (rs : List Row) (hout : w.output = false)
    (hne : w.items ++ rs ≠ [])
    (h : w.chunk_size ≤ w.items.length + rs.length)
    (hsafe : commitRaises w.schema (w.items ++ rs) = false) :
    w.insertmany rs = .ok ({ w with
                             items := [], i := w.i + 1,
                             j := w.j + (w.items.length + rs.length),
                             file := w.file ++
                               (commitRows w.schema (w.items ++ rs)).map FileLine.row },
      true) := by
  have hcom := commit_nonempty { w with items := w.items ++ rs }
    (by simpa using hout) (by simpa using hne) (by simpa using hsafe)
  simp only [List.length_append] at hcom
  simp [ChunkWriter.insertmany, h, hcom]

lemma insertmany_raise (w : ChunkWriter) (rs : List Row)
    (hout : w.output = false) (hne : w.items ++ rs ≠ [])
    (h : w.chunk_size ≤ w.items.length + rs.length)
    (hbad : commitRaises w.schema (w.items ++ rs) = true) :
    w.insertmany rs =
      .error "TypeError: cannot safely cast non-equivalent float64 to int64" := by
  have hcom := commit_raise { w with items := w.items ++ rs }
    (by simpa using hout) (by simpa using hne) (by simpa using hbad)
  simp [ChunkWriter.insertmany, h, hcom]

lemma insertSeq_below (rows : List Row) : ∀ w : ChunkWriter,
    w.items.length + rows.length < w.chunk_size →
    insertSeq w rows = .ok ({ w with items := w.items ++ rows },
      List.replicate rows.length false) := by
  induction rows with
  | nil =>
    intro w _
    simp [insertSeq]
  | cons r rs ih =>
    intro w h
    simp only [List.length_cons] at h
    have hr := insert_below w r (by omega)
    have hs := ih { w with items := w.items ++ [r] } (by simp; omega)
    simp only [insertSeq, hr, hs]
    simp [List.append_assoc, List.replicate_succ]

lemma insertSeq_append_ok : ∀ (xs ys : List Row) (w w1 w2 : ChunkWriter)
    (bs1 bs2 : List Bool), insertSeq w xs = .ok (w1, bs1) →
    insertSeq w1 ys = .ok (w2, bs2) →
    insertSeq w (xs ++ ys) = .ok (w2, bs1 ++ bs2) := by
  intro xs
  induction xs with
  | nil =>
    intro ys w w1 w2 bs1 bs2 h1 h2
    simp only [insertSeq, Except.ok.injEq, Prod.mk.injEq] at h1
    obtain ⟨rfl, rfl⟩ := h1
    simpa using h2
  | cons x xs ih =>
    intro ys w w1 w2 bs1 bs2 h1 h2
    simp only [insertSeq] at h1
    cases hx : w.insert x with
    | error e => rw [hx] at h1; simp at h1
    | ok p =>
      obtain ⟨wa, b⟩ := p
      rw [hx] at h1
      dsimp only at h1
      cases hs : insertSeq wa xs with
      | error e => rw [hs] at h1; simp at h1
      | ok q =>
        obtain ⟨wb, bs⟩ := q
        rw [hs] at h1
        simp only [Except.ok.injEq, Prod.mk.injEq] at h1
        obtain ⟨rfl, rfl⟩ := h1
        have hrest := ih ys wa wb w2 bs bs2 hs h2
        simp only [List.cons_append, insertSeq, hx, List.append_eq, hrest]

lemma insertSeq_append_error : ∀ (xs ys : List Row) (w w1 : ChunkWriter)
    (bs1 : List Bool) (e : String), insertSeq w xs = .ok (w1, bs1) →
    insertSeq w1 ys = .error e →
    insertSeq w (xs ++ ys) = .error e := by
  intro xs
  induction xs with
  | nil =>
    intro ys w w1 bs1 e h1 h2
    simp only [insertSeq, Except.ok.injEq, Prod.mk.injEq] at h1
    obtain ⟨rfl, rfl⟩ := h1
    simpa using h2
  | cons x xs ih =>
    intro ys w w1 bs1 e h1 h2
    simp only [insertSeq] at h1
    cases hx : w.insert x with
    | error e2 => rw [hx] at h1; simp at h1
    | ok p =>
      obtain ⟨wa, b⟩ := p
      rw [hx] at h1
      dsimp only at h1
      cases hs : insertSeq wa xs with
      | error e2 => rw [hs] at h1; simp at h1
      | ok q =>
        obtain ⟨wb, bs⟩ := q
        rw [hs] at h1
        simp only [Except.ok.injEq, Prod.mk.injEq] at h1
        obtain ⟨rfl, rfl⟩ := h1
        have hrest := ih ys wa wb bs e hs h2
        simp only [List.cons_append, insertSeq, hx, List.append_eq, hrest]

lemma insertSeq_exact (w : ChunkWriter) (rows : List Row)
    (hout : w.output = false) (hne : rows ≠ [])
    (hlen : w.items.length + rows.length = w.chunk_size)
    (hsafe : commitRaises w.schema (w.items ++ rows) = false) :
    insertSeq w rows = .ok ({ w with
        items := [], i := w.i + 1,
        j := w.j + (w.items.length + rows.length),
        file := w.file ++
          (commitRows w.schema (w.items ++ rows)).map FileLine.row },
      List.replicate (rows.length - 1) false ++ [true]) := by
  obtain ⟨init, lastr, rfl⟩ : ∃ a b, rows = a ++ [b] :=
    ⟨rows.dropLast, rows.getLast hne, (List.dropLast_append_getLast hne).symm⟩
  simp only [List.length_append, List.length_cons, List.length_nil,
    Nat.zero_add] at hlen
  have hs1 := insertSeq_below init w (by omega)
  have hin := insert_hit { w with items := w.items ++ init } lastr
    (by simp [hout]) (by simp; omega)
    (by simpa [List.append_assoc] using hsafe)
  have hs2 : insertSeq { w with items := w.items ++ init } [lastr] =
      .ok ({ w with
             items := [], i := w.i + 1,
             j := w.j + ((w.items ++ init).length + 1),
             file := w.file ++
               (commitRows w.schema ((w.items ++ init) ++ [lastr])).map
                 FileLine.row },
        [true]) := by
    simp [insertSeq, hin]
  have hcomb := insertSeq_append_ok init [lastr] w _ _ _ _ hs1 hs2
  simpa [List.length_append, Nat.add_assoc, List.append_assoc] using hcomb

lemma insertSeq_exact_raise (w : ChunkWriter) (rows : List Row)
    (hout : w.output = false) (hne : rows ≠ [])
    (hlen : w.items.length + rows.length = w.chunk_size)
    (hbad : commitRaises w.schema (w.items ++ rows) = true) :
    insertSeq w rows =
      .error "TypeError: cannot safely cast non-equivalent float64 to int64" := by
  obtain ⟨init, lastr, rfl⟩ : ∃ a b, rows = a ++ [b] :=
    ⟨rows.dropLast, rows.getLast hne, (List.dropLast_append_getLast hne).symm⟩
  simp only [List.length_append, List.length_cons, List.length_nil,
    Nat.zero_add] at hlen
  have hs1 := insertSeq_below init w (by omega)
  have hin := insert_raise { w with items := w.items ++ init } lastr
    (by simp [hout]) (by simp; omega)
    (by simpa [List.append_assoc] using hbad)
  have hs2 : insertSeq { w with items := w.items ++ init } [lastr] =
      .error "TypeError: cannot safely cast non-equivalent float64 to int64" := by
    simp [insertSeq, hin]
  exact insertSeq_append_error init [lastr] w _ _ _ hs1 hs2

lemma any_id_replicate_false (n : Nat) :
    (List.replicate n false).any id = false := by
  induction n with
  | zero => rfl
  | succ n ih => simp only [List.replicate_succ, List.any_cons, ih]; rfl

/-! ### Lemmas about the inert writer -/

lemma dummyInsertSeq_count (cs : Nat) (out : Bool) (hcs : 0 < cs) :
    ∀ (rows : List Row) (lastv : Option Row) (iv : Nat), iv < cs →
      (dummyInsertSeq ⟨cs, out, lastv, iv⟩ rows).i = (iv + rows.length) % cs := by
  intro rows
  induction rows with
  | nil =>
    intro lastv iv h
    simp [dummyInsertSeq, Nat.mod_eq_of_lt h]
  | cons r rows ih =>
    intro lastv iv h
    by_cases hc : cs ≤ iv + 1
    · have hins : DummyWriter.insert ⟨cs, out, lastv, iv⟩ r =
          (⟨cs, out, some r, 0⟩, true) := by
        simp [DummyWriter.insert, DummyWriter.commit, hc]
      have hstep : dummyInsertSeq ⟨cs, out, lastv, iv⟩ (r :: rows) =
          dummyInsertSeq ⟨cs, out, some r, 0⟩ rows := by
        simp [dummyInsertSeq, hins]
      rw [hstep, ih (some r) 0 hcs]
      simp only [List.length_cons, Nat.zero_add]
      rw [show iv + (rows.length + 1) = cs + rows.length by omega,
        Nat.add_mod_left]
    · have hins : DummyWriter.insert ⟨cs, out, lastv, iv⟩ r =
          (⟨cs, out, some r, iv + 1⟩, false) := by
        simp [DummyWriter.insert, hc]
      have hstep : dummyInsertSeq ⟨cs, out, lastv, iv⟩ (r :: rows) =
          dummyInsertSeq ⟨cs, out, some r, iv + 1⟩ rows := by
        simp [dummyInsertSeq, hins]
      rw [hstep, ih (some r) (iv + 1) (by omega)]
      simp only [List.length_cons]
      rw [show iv + 1 + rows.length = iv + (rows.length + 1) by omega]

lemma dummyApply_chunk_size (op : DOp) (d : DummyWriter) :
    (dummyApply op d).chunk_size = d.chunk_size := by
  cases op <;>
    simp only [dummyApply, DummyWriter.insert, DummyWriter.insertmany,
      DummyWriter.commit, DummyWriter.delete] <;>
    split <;> rfl

lemma dummyRun_chunk_size (ops : List DOp) : ∀ d : DummyWriter,
    (dummyRun d ops).chunk_size = d.chunk_size := by
  induction ops with
  | nil => intro d; rfl
  | cons op ops ih =>
    intro d
    simp only [dummyRun, List.foldl_cons]
    rw [show (ops.foldl (fun d op => dummyApply op d) (dummyApply op d)) =
      dummyRun (dummyApply op d) ops from rfl, ih, dummyApply_chunk_size]

/-! ### Lemmas about the element pump -/

lemma clear_eq : ∀ (tree : List Elem) (k : Nat), k < tree.length →
    clear tree k = { content := "" } :: tree.drop (k + 1) := by
  intro tree
  induction tree with
  | nil => intro k h; simp at h
  | cons x t ih =>
    intro k h
    cases k with
    | zero => simp [clear]
    | succ k =>
      simp only [List.length_cons, Nat.add_lt_add_iff_right] at h
      have := ih k h
      simp only [clear] at this ⊢
      simp only [List.set_cons_succ, List.drop_succ_cons]
      exact this

lemma getD_append_self (S : List Elem) (e : Elem) (es : List Elem) :
    (S ++ e :: es).getD S.length { content := "" } = e := by
  induction S with
  | nil => rfl
  | cons x S ih => simpa using ih

lemma drop_append_cons (e : Elem) : ∀ (S es : List Elem),
    (S ++ e :: es).drop (S.length + 1) = es := by
  intro S
  induction S with
  | nil => intro es; simp
  | cons x S ih => intro es; simp only [List.cons_append, List.length_cons,
      List.drop_succ_cons]; exact ih es

lemma drainN_step {α : Type} (f : Elem → α) (S es : List Elem) (e : Elem)
    (outs : List α) :
    drainN f (es.length + 1) (S ++ e :: es, outs) =
      drainN f es.length ({ content := "" } :: es, outs ++ [f e]) := by
  have hlen : (S ++ e :: es).length - (es.length + 1) = S.length := by
    simp [List.length_append]
  have hidx : S.length < (S ++ e :: es).length := by
    simp [List.length_append]
  have hclear : clear (S ++ e :: es) S.length =
      { content := "" } :: es := by
    rw [clear_eq (S ++ e :: es) S.length hidx, drop_append_cons]
  simp only [drainN, hlen, hclear, getD_append_self]

lemma drainN_batch {α : Type} (f : Elem → α) :
    ∀ (es S : List Elem) (outs : List α),
      drainN f es.length (S ++ es, outs) =
        (if es.isEmpty then S else [{ content := "" }], outs ++ es.map f) := by
  intro es
  induction es with
  | nil => intro S outs; simp [drainN]
  | cons e es ih =>
    intro S outs
    rw [show (e :: es).length = es.length + 1 from rfl, drainN_step]
    have := ih [{ content := "" }] (outs ++ [f e])
    rw [show ({ content := "" } :: es : List Elem) =
      [{ content := "" }] ++ es from rfl, this]
    simp [ite_self]

lemma segRun_spec {α : Type} (f : Elem → α) :
    ∀ (segs : List (List Elem)) (T : List Elem) (outs : List α),
      T.length ≤ 1 → (∀ x ∈ T, x.content = "") →
      ∃ T2, segRun f segs (T, outs) = (T2, outs ++ segs.flatten.map f) ∧
        T2.length ≤ 1 ∧ ∀ x ∈ T2, x.content = "" := by
  intro segs
  induction segs with
  | nil =>
    intro T outs h1 h2
    exact ⟨T, by simp [segRun], h1, h2⟩
  | cons es segs ih =>
    intro T outs h1 h2
    rw [show segRun f (es :: segs) (T, outs) =
      segRun f segs (drainN f es.length (T ++ es, outs)) from rfl]
    rw [drainN_batch]
    by_cases he : es.isEmpty
    · rw [List.isEmpty_iff] at he
      subst he
      obtain ⟨T2, hrun, hl, hc⟩ := ih T (outs ++ ([] : List Elem).map f) h1 h2
      exact ⟨T2, by simpa using hrun, hl, hc⟩
    · obtain ⟨T2, hrun, hl, hc⟩ :=
        ih [{ content := "" }] (outs ++ es.map f) (by simp) (by simp)
      refine ⟨T2, ?_, hl, hc⟩
      have hif : (if es.isEmpty then T else [({ content := "" } : Elem)]) =
          [{ content := "" }] := by simp [he]
      rw [hif, hrun]
      simp [List.append_assoc]

/-! ### Lemmas about the prologue line loop -/

lemma feedsOf_cons_drain (evts : List FeedEvent) :
    feedsOf (.drain :: evts) = feedsOf evts := by
  simp [feedsOf, List.filterMap_cons]

lemma feedsOf_cons_feed (s : String) (evts : List FeedEvent) :
    feedsOf (.feed s :: evts) = s :: feedsOf evts := by
  simp [feedsOf, List.filterMap_cons]

lemma feedLoop_eq (lines : List String) :
    feedLoop lines =
      (lines.map lineEvents).flatten ++ [.feed "</root>\n", .drain] := by
  induction lines with
  | nil => rfl
  | cons l ls ih =>
    by_cases h1 : isDecl l
    · simp [feedLoop, lineEvents, h1, ih]
    · by_cases h2 : isDropped l
      · simp [feedLoop, lineEvents, h1, h2, ih]
      · simp [feedLoop, lineEvents, h1, h2, ih]

lemma feedsOf_feedLoop (lines : List String) :
    feedsOf (feedLoop lines) =
      lines.filter (fun l => !isDecl l && !isDropped l) ++ ["</root>\n"] := by
  induction lines with
  | nil => rfl
  | cons l ls ih =>
    by_cases h1 : isDecl l
    · simp [feedLoop, h1, feedsOf_cons_drain, List.filter_cons, ih]
    · by_cases h2 : isDropped l
      · simp [feedLoop, h1, h2, List.filter_cons, ih]
      · simp [feedLoop, h1, h2, feedsOf_cons_feed, List.filter_cons, ih]

lemma drainCount_feedLoop (lines : List String) :
    drainCount (feedLoop lines) =
      (lines.filter (fun l => isDecl l)).length + 1 := by
  induction lines with
  | nil => rfl
  | cons l ls ih =>
    by_cases h1 : isDecl l
    · simp [feedLoop, drainCount, List.filter_cons, h1] at ih ⊢
      omega
    · by_cases h2 : isDropped l
      · simp [feedLoop, drainCount, List.filter_cons, h1, h2] at ih ⊢
        omega
      · simp [feedLoop, drainCount, List.filter_cons, h1, h2] at ih ⊢
        omega

lemma drainCount_cons_feed (s : String) (evts : List FeedEvent) :
    drainCount (.feed s :: evts) = drainCount evts := by
  simp [drainCount, List.filter_cons]

/-! ## The claims -/

/-- C3 counterexample: `"1.5"` cannot parse as an integer, yet it does not
become a null cell — `pd.to_numeric` parses it as the float 1.5 and the
`astype(Int64)` safe cast raises `TypeError`, failing the whole batch:
`astype` on the column and `commit` on a buffer holding it both fail, so
"every unparseable value becomes a null cell, the commit never fails" is
false of the code. -/
theorem astype_nonintegral_raises :
    astype Dtype.int ["12", "1.5", "7"] =
      .error "TypeError: cannot safely cast non-equivalent float64 to int64" ∧
    ChunkWriter.commit
        { schema := [("v", Dtype.int)], chunk_size := 1000, output := false,
          items := [["12"], ["1.5"], ["7"]], i := 0, j := 0,
          file := [FileLine.header "v"] } =
      .error "TypeError: cannot safely cast non-equivalent float64 to int64" :=
  ⟨rfl, rfl⟩

/-- C3 as amended: on a declared nullable-integer column, a value
`pd.to_numeric` cannot parse as a number becomes a null cell without
failing anything, and an integral numeric value becomes its integer (so
`["12", "abc", "7"]` commits as the column `[12, null, 7]`, and `"7.0"`,
`"+12"`, `"1e3"`, `" 12"` become 7, 12, 1000, 12); but a numeric
non-integral value makes the `astype(Int64)` safe cast raise and fails the
batch, so the commit only never fails when no such cell is buffered.  A
declared string column preserves every value verbatim and never fails. -/
theorem chunkWriter_type_coercion :
    astype Dtype.int ["12", "abc", "7"] =
      .ok [Cell.n (some 12), Cell.n none, Cell.n (some 7)] ∧
    astype Dtype.str ["12", "abc", "7"] =
      .ok [Cell.s "12", Cell.s "abc", Cell.s "7"] ∧
    astype Dtype.int ["7.0", "+12", "1e3", " 12"] =
      .ok [Cell.n (some 7), Cell.n (some 12), Cell.n (some 1000),
        Cell.n (some 12)] ∧
    ChunkWriter.commit
        { schema := [("v", Dtype.int)], chunk_size := 1000, output := false,
          items := [["12"], ["abc"], ["7"]], i := 0, j := 0,
          file := [FileLine.header "v"] } =
      .ok { schema := [("v", Dtype.int)], chunk_size := 1000, output := false,
            items := [], i := 1, j := 3,
            file := [FileLine.header "v", FileLine.row [Cell.n (some 12)],
              FileLine.row [Cell.n none], FileLine.row [Cell.n (some 7)]] } ∧
    ChunkWriter.commit
        { schema := [("v", Dtype.str)], chunk_size := 1000, output := false,
          items := [["12"], ["abc"], ["7"]], i := 0, j := 0,
          file := [FileLine.header "v"] } =
      .ok { schema := [("v", Dtype.str)], chunk_size := 1000, output := false,
            items := [], i := 1, j := 3,
            file := [FileLine.header "v", FileLine.row [Cell.s "12"],
              FileLine.row [Cell.s "abc"], FileLine.row [Cell.s "7"]] } := by
  refine ⟨rfl, rfl, rfl, rfl, rfl⟩

/-- C4 counterexample: two designated elements complete between drains (two
recs closed in the same fed line — `parse_all` runs only at declaration
lines and end of input).  The drain of that segment starts from a tree
holding both completed elements, and immediately after the transform runs
on the first, the tree still retains the second completed element with its
content intact: two retained elements, one of them completed and unemptied
— not "at most one completed designated Element at any time". -/
theorem pump_retains_batch :
    segRun Elem.content [[{ content := "a" }, { content := "b" }]]
        ([], []) =
      drainN Elem.content 2 ([{ content := "a" }, { content := "b" }], []) ∧
    drainN Elem.content 2 ([{ content := "a" }, { content := "b" }], []) =
      drainN Elem.content 1 ([{ content := "" }, { content := "b" }], ["a"]) ∧
    ([{ content := "" }, { content := "b" }] : List Elem).length = 2 ∧
    ({ content := "b" } : Elem).content ≠ "" := by
  refine ⟨rfl, rfl, rfl, by decide⟩

/-- C4 as amended: immediately after the transform runs on a yielded
element, that element's content is cleared and every preceding sibling
subtree is deleted, and no element is ever yielded twice — elements are
yielded exactly once, in document order.  But elements completed since the
last drain stay in the tree until their own turn within the drain, so a
whole inter-drain batch of completed elements can be retained
simultaneously; what holds is that after every complete drain the tree
retains at most one, emptied, element. -/
theorem pump_batched_drain {α : Type} (f : Elem → α)
    (segs : List (List Elem)) :
    (∃ T, segRun f segs ([], []) = (T, segs.flatten.map f) ∧
      T.length ≤ 1 ∧ ∀ x ∈ T, x.content = "") ∧
    (∀ (tree : List Elem) (k : Nat), k < tree.length →
      clear tree k = { content := "" } :: tree.drop (k + 1)) ∧
    (∀ (S es : List Elem) (e : Elem) (outs : List α),
      drainN f (es.length + 1) (S ++ e :: es, outs) =
        drainN f es.length ({ content := "" } :: es, outs ++ [f e])) := by
  refine ⟨?_, clear_eq, fun S es e outs => drainN_step f S es e outs⟩
  obtain ⟨T2, hrun, hl, hc⟩ :=
    segRun_spec f segs [] [] (by simp) (by simp)
  exact ⟨T2, by simpa using hrun, hl, hc⟩

/-- C5: prologue line handling — `parse_wrapper` feeds the synthetic root
start tag before any input line and the root end tag after the last line;
doctype/entity/closer lines are never fed; each XML-declaration line
produces a drain of the buffered completed elements in place of the line,
all other lines are fed as-is in order; one final drain occurs at end of
input. -/
theorem parse_wrapper_prologue (lines : List String) :
    wrapperEvents lines =
      FeedEvent.feed "<root>\n" ::
        ((lines.map lineEvents).flatten ++
          [FeedEvent.feed "</root>\n", FeedEvent.drain]) ∧
    feedsOf (wrapperEvents lines) =
      "<root>\n" ::
        (lines.filter (fun l => !isDecl l && !isDropped l) ++ ["</root>\n"]) ∧
    (∀ l ∈ lines, isDropped l = true →
      FeedEvent.feed l ∉ wrapperEvents lines) ∧
    drainCount (wrapperEvents lines) =
      (lines.filter (fun l => isDecl l)).length + 1 := by
  have hfeeds : feedsOf (wrapperEvents lines) =
      "<root>\n" ::
        (lines.filter (fun l => !isDecl l && !isDropped l) ++ ["</root>\n"]) := by
    simp only [wrapperEvents, feedsOf_cons_feed, feedsOf_feedLoop]
  refine ⟨by simp [wrapperEvents, feedLoop_eq], hfeeds, ?_, ?_⟩
  · intro l hl hdrop hmem
    have hm : l ∈ feedsOf (wrapperEvents lines) := by
      unfold feedsOf
      exact List.mem_filterMap.mpr ⟨.feed l, hmem, rfl⟩
    rw [hfeeds] at hm
    simp only [List.mem_cons, List.mem_append, List.mem_filter,
      List.not_mem_nil, or_false] at hm
    rcases hm with h | ⟨-, hp⟩ | h
    · rw [h] at hdrop
      exact absurd hdrop (by decide)
    · rw [hdrop] at hp
      simp at hp
    · rw [h] at hdrop
      exact absurd hdrop (by decide)
  · show drainCount (.feed "<root>\n" :: feedLoop lines) = _
    rw [drainCount_cons_feed, drainCount_feedLoop]

/-- C8 counterexample: the inert writer's running count after `N = 2`
single-row inserts with threshold 2 is 0, not 2 — `commit` resets the
count, so the count does not equal `N` for every `N`. -/
theorem dummyWriter_count_not_N :
    (dummyInsertSeq (mkDummyWriter 2 false) [["a"], ["b"]]).i ≠ 2 := by
  decide

/-- C8 as amended: the inert writer accepts every interface call sequence
(all four operations are total in the model, so nothing can raise) and its
running count after `N` single-row inserts equals `N` modulo the chunk
size — equal to `N` exactly while `N` stays below the threshold; the count
resets to zero whenever it reaches the threshold. -/
theorem dummyWriter_running_count (cs : Nat) (out : Bool) (rows : List Row)
    (hcs : 0 < cs) :
    (dummyInsertSeq (mkDummyWriter cs out) rows).i = rows.length % cs ∧
    (rows.length < cs →
      (dummyInsertSeq (mkDummyWriter cs out) rows).i = rows.length) ∧
    (∀ ops : List DOp, (dummyRun (mkDummyWriter cs out) ops).chunk_size = cs) := by
  have h := dummyInsertSeq_count cs out hcs rows none 0 hcs
  simp only [Nat.zero_add] at h
  have hmk : mkDummyWriter cs out = ⟨cs, out, none, 0⟩ := rfl
  refine ⟨by rw [hmk]; exact h, ?_, fun ops => by rw [dummyRun_chunk_size]; rfl⟩
  intro hlt
  rw [hmk, h]
  exact Nat.mod_eq_of_lt hlt

/-- C8 witness: threshold 3, five inserts — count is `5 % 3 = 2`. -/
theorem dummyWriter_running_count_witness :
    0 < 3 ∧
    ((dummyInsertSeq (mkDummyWriter 3 false) [["a"], ["b"], ["c"], ["d"], ["e"]]).i =
        ([["a"], ["b"], ["c"], ["d"], ["e"]] : List Row).length % 3 ∧
      (([["a"], ["b"], ["c"], ["d"], ["e"]] : List Row).length < 3 →
        (dummyInsertSeq (mkDummyWriter 3 false)
            [["a"], ["b"], ["c"], ["d"], ["e"]]).i =
          ([["a"], ["b"], ["c"], ["d"], ["e"]] : List Row).length) ∧
      (∀ ops : List DOp,
        (dummyRun (mkDummyWriter 3 false) ops).chunk_size = 3)) :=
  ⟨by decide,
    dummyWriter_running_count 3 false [["a"], ["b"], ["c"], ["d"], ["e"]]
      (by decide)⟩

/-- C9 counterexample: an empty `commit` on a fresh writer is observable —
it bumps the counter `i` from 0 to 1 even though zero batches have been
committed, so the counters do not remain counts of batches actually
committed. -/
theorem commit_empty_not_noop :
    iAfter (ChunkWriter.commit (mkChunkWriter [("a", Dtype.str)] 2 false)) ≠
      some (mkChunkWriter [("a", Dtype.str)] 2 false).i := by
  decide

/-- C9 as amended: a `commit` on an empty buffer writes nothing, leaves the
sink, the buffer and the row counter `j` unchanged and raises no error, but
it does increment the counter `i` by one: `i` counts `commit` invocations
(empty ones included), not committed batches. -/
theorem commit_empty_effect (w : ChunkWriter) (h : w.items = []) :
    w.commit = .ok { w with i := w.i + 1 } :=
  commit_empty w h

/-- C9 witness: an empty commit on a fresh diagnostic-flagged writer —
still no error, only `i` bumps. -/
theorem commit_empty_effect_witness :
    (mkChunkWriter [("a", Dtype.str)] 5 true).items = [] ∧
    ChunkWriter.commit (mkChunkWriter [("a", Dtype.str)] 5 true) =
      .ok { mkChunkWriter [("a", Dtype.str)] 5 true with
            i := (mkChunkWriter [("a", Dtype.str)] 5 true).i + 1 } :=
  ⟨rfl, commit_empty_effect (mkChunkWriter [("a", Dtype.str)] 5 true) rfl⟩

/-- C10: with the diagnostic-output flag set, committing a non-empty buffer
always raises — the `print` on line 111 reads `self.table`, an attribute
`__init__` never assigns — so the diagnostic path can never complete. -/
theorem chunkWriter_output_commit_raises (w : ChunkWriter)
    (hout : w.output = true) (hne : w.items ≠ []) :
    w.commit = .error "AttributeError: ChunkWriter has no attribute table" := by
  simp [ChunkWriter.commit, hout, List.length_eq_zero, hne]

/-- C10 witness: a writer with the flag set and one buffered row. -/
theorem chunkWriter_output_commit_raises_witness :
    (({ mkChunkWriter [("a", Dtype.str)] 2 true with
        items := [["x"]] } : ChunkWriter).output = true ∧
      ({ mkChunkWriter [("a", Dtype.str)] 2 true with
         items := [["x"]] } : ChunkWriter).items ≠ []) ∧
    ChunkWriter.commit
        { mkChunkWriter [("a", Dtype.str)] 2 true with items := [["x"]] } =
      .error "AttributeError: ChunkWriter has no attribute table" :=
  ⟨⟨rfl, by decide⟩,
    chunkWriter_output_commit_raises
      { mkChunkWriter [("a", Dtype.str)] 2 true with items := [["x"]] }
      rfl (by decide)⟩

/-- C7 counterexample: with threshold 2 and three rows on a fresh writer,
`insertmany` leaves an empty buffer (it committed all three rows in one
oversized batch) while three repeated `insert` calls leave `[z]` buffered
(they committed exactly two rows at the threshold) — the two call styles
are not equivalent for every state and row sequence. -/
theorem insertmany_not_repeated_insert :
    itemsAfter
        (ChunkWriter.insertmany (mkChunkWriter [("a", Dtype.str)] 2 false)
          [["x"], ["y"], ["z"]]) ≠
      seqItemsAfter
        (insertSeq (mkChunkWriter [("a", Dtype.str)] 2 false)
          [["x"], ["y"], ["z"]]) := by
  decide

/-- C7 as amended: `insertmany(rows)` appends the whole sequence in one
mutation and then commits the entire buffer at most once, exactly when the
post-append buffer size reaches the threshold; for a non-diagnostic writer
and a nonempty row sequence it is equivalent to repeated `insert`
precisely when the post-append buffer size does not exceed the threshold —
identical outcome in every case: same final state (buffer, sink, counters)
with `insertmany` reporting a commit iff some `insert` reported one, and,
when the triggered commit's cast fails, the same `TypeError` raised by
both call styles.  (When the rows overshoot the threshold the two differ:
repeated `insert` commits a batch of exactly `threshold` rows and keeps
the overflow buffered, `insertmany` commits everything in one batch.) -/
theorem insertmany_equiv_within_threshold (w : ChunkWriter)
    (rows : List Row) (hout : w.output = false) (hne : rows ≠ [])
    (hle : w.items.length + rows.length ≤ w.chunk_size) :
    w.insertmany rows =
      Except.map (fun p => (p.1, p.2.any id)) (insertSeq w rows) := by
  rcases lt_or_eq_of_le hle with hlt | heq
  · rw [insertSeq_below rows w hlt, insertmany_below w rows hlt]
    simp [Except.map, any_id_replicate_false]
  · have hne2 : w.items ++ rows ≠ [] := by
      intro h
      exact hne (List.append_eq_nil.mp h).2
    cases hbad : commitRaises w.schema (w.items ++ rows) with
    | true =>
      rw [insertSeq_exact_raise w rows hout hne heq hbad,
        insertmany_raise w rows hout hne2 (le_of_eq heq.symm) hbad]
      rfl
    | false =>
      rw [insertSeq_exact w rows hout hne heq hbad,
        insertmany_hit w rows hout hne2 (le_of_eq heq.symm) hbad]
      simp [Except.map, List.any_append, any_id_replicate_false]

/-- C7 witness: two rows into an empty buffer with threshold 3 — both call
styles leave the same state and report no commit. -/
theorem insertmany_equiv_within_threshold_witness :
    ((mkChunkWriter [("a", Dtype.str)] 3 false).output = false ∧
      ([["x"], ["y"]] : List Row) ≠ [] ∧
      (mkChunkWriter [("a", Dtype.str)] 3 false).items.length +
          ([["x"], ["y"]] : List Row).length ≤
        (mkChunkWriter [("a", Dtype.str)] 3 false).chunk_size) ∧
    ChunkWriter.insertmany (mkChunkWriter [("a", Dtype.str)] 3 false)
        [["x"], ["y"]] =
      Except.map (fun p => (p.1, p.2.any id))
        (insertSeq (mkChunkWriter [("a", Dtype.str)] 3 false)
          [["x"], ["y"]]) :=
  ⟨⟨rfl, by decide, by decide⟩,
    insertmany_equiv_within_threshold (mkChunkWriter [("a", Dtype.str)] 3 false)
      [["x"], ["y"]] rfl (by decide) (by decide)⟩

end ParseTools
